import Mathlib

/-!
Verification of the matching/scoring core of the spotify-apple-music-links bot
(`src/utils/scoring.js`).  The JavaScript functions `calculateSongScore`,
`getConfidenceLevel` and `findBestMatch` are embedded as executable Lean
definitions over exact rationals; the `string-similarity` dependency's
`compareTwoStrings` (a Dice bigram-overlap coefficient computed after removing
whitespace) is embedded following the algorithm the design document describes.
-/

namespace Scoring

/-- A character matched by the JavaScript regex class `\w` (ASCII): letters,
digits, and the underscore. -/
def isWordChar (c : Char) : Bool :=
  c.isAlpha || c.isDigit || c = '_'

/-- A character matched by the JavaScript regex class `\s` (ASCII range):
space, tab, line feed, vertical tab, form feed, carriage return. -/
def isSpaceChar (c : Char) : Bool :=
  c = ' ' || c = '\t' || c = '\n' || c = Char.ofNat 11 || c = Char.ofNat 12 || c = '\r'

/-- JavaScript `String.prototype.trim`: drop whitespace from both ends. -/
def trimChars (l : List Char) : List Char :=
  ((l.dropWhile isSpaceChar).reverse.dropWhile isSpaceChar).reverse

/-- The scorer's field normalization
`(str) => str?.toLowerCase().replace(/[^\w\s]/g, '').trim() || ''`:
a missing field gives the empty string; otherwise lower-case, delete every
character matching neither `\w` nor `\s`, and trim. -/
def normalize : Option String → String
  | none => ""
  | some s =>
      String.mk (trimChars (((s.data.map Char.toLower)).filter
        (fun c => isWordChar c || isSpaceChar c)))

/-- `replace(/\s+/g, '')` as performed by `compareTwoStrings`: every
whitespace character is removed. -/
def removeSpaces (s : String) : List Char :=
  s.data.filter (fun c => !isSpaceChar c)

/-- The list of adjacent character pairs (bigrams) of a character list. -/
def bigrams : List Char → List (Char × Char)
  | a :: b :: rest => (a, b) :: bigrams (b :: rest)
  | _ => []

/-- Decrement of one stored bigram occurrence, as `compareTwoStrings` does on
its count map: drop the first occurrence of `g` from the bag. -/
def removeOne (g : Char × Char) : List (Char × Char) → List (Char × Char)
  | [] => []
  | b :: rest => if b = g then rest else b :: removeOne g rest

/-- The bigram-multiset intersection size computed by `compareTwoStrings`:
walk the second list, consuming one matching occurrence from the first
bag per hit. -/
def interSize : List (Char × Char) → List (Char × Char) → Nat
  | _, [] => 0
  | bag, g :: rest =>
      if g ∈ bag then interSize (removeOne g bag) rest + 1
      else interSize bag rest

/-- The `string-similarity` package's `compareTwoStrings`: strip whitespace,
return 1 for identical strings (hence 1 for two empty strings), 0 when either
stripped string is shorter than two characters, and otherwise the Dice
coefficient `2 * I / (len1 + len2 - 2)` over bigram multisets. -/
def compareTwoStrings (s t : String) : ℚ :=
  let f := removeSpaces s
  let g := removeSpaces t
  if f = g then 1
  else if f.length < 2 ∨ g.length < 2 then 0
  else (2 * (interSize (bigrams f) (bigrams g) : ℚ)) /
        ((f.length : ℚ) + (g.length : ℚ) - 2)

/-- JavaScript `Math.round` on the (non-negative) values arising here:
floor of the argument plus one half, ties rounding up. -/
def jsRound (q : ℚ) : ℤ :=
  Int.floor (q + 1 / 2)

/-- A song record: the three compared text fields, each possibly absent,
plus arbitrary pass-through descriptive fields. -/
structure SongRecord where
  name : Option String
  artist : Option String
  album : Option String
  extra : List (String × String) := []
deriving DecidableEq

/-- `calculateSongScore`: 0 when either record is null, otherwise the
weighted (0.4 title, 0.4 artist, 0.2 album) combination of the three
field similarities of the normalized fields, times 100, rounded. -/
def calculateSongScore : Option SongRecord → Option SongRecord → ℤ
  | some o, some c =>
      let titleScore := compareTwoStrings (normalize o.name) (normalize c.name)
      let artistScore := compareTwoStrings (normalize o.artist) (normalize c.artist)
      let albumScore := compareTwoStrings (normalize o.album) (normalize c.album)
      jsRound ((titleScore * (0.4 : ℚ) + artistScore * (0.4 : ℚ) +
        albumScore * (0.2 : ℚ)) * 100)
  | _, _ => 0

/-- `getConfidenceLevel`, with the source's four branches kept verbatim
(the 90/80/60 branches produce textually identical output). -/
def getConfidenceLevel (score : ℤ) : String :=
  if score ≥ 98 then "Exact match"
  else if score ≥ 90 then toString score ++ "% match"
  else if score ≥ 80 then toString score ++ "% match"
  else if score ≥ 60 then toString score ++ "% match"
  else toString score ++ "% match (low confidence)"

/-- A selection result: the winning candidate's fields (`{...candidate}`)
plus the attached `matchScore`. -/
structure MatchResult where
  song : SongRecord
  matchScore : ℤ
deriving DecidableEq

/-- The candidate loop of `findBestMatch`: strictly-greater updates of the
running best match and best score. -/
def findBestLoop (orig : Option SongRecord) :
    List SongRecord → Option MatchResult → ℤ → Option MatchResult × ℤ
  | [], best, bestScore => (best, bestScore)
  | c :: rest, best, bestScore =>
      let score := calculateSongScore orig (some c)
      if score > bestScore then findBestLoop orig rest (some ⟨c, score⟩) score
      else findBestLoop orig rest best bestScore

/-- `findBestMatch`: null for a null/empty candidate list, otherwise run the
loop from best score 0 and return the tracked best only when it reached 60. -/
def findBestMatch (orig : Option SongRecord) (candidates : Option (List SongRecord)) :
    Option MatchResult :=
  match candidates with
  | none => none
  | some cs =>
      if cs.length = 0 then none
      else
        let r := findBestLoop orig cs none 0
        if r.2 ≥ 60 then r.1 else none

/-- The best score the loop ends with: the fold of `max` over all candidate
scores, started from 0. -/
def bestScoreOf (orig : Option SongRecord) (cs : List SongRecord) : ℤ :=
  cs.foldl (fun a c => max a (calculateSongScore orig (some c))) 0

/-- Modelled from the claim wording for the normalization step: lower-case,
strip every character that is not a letter, digit, or whitespace, then trim;
a missing field normalizes to the empty string.  (Differs from the code,
whose regex `\w` also keeps underscores.) -/
def claimNormalize : Option String → String
  | none => ""
  | some s =>
      String.mk (trimChars (((s.data.map Char.toLower)).filter
        (fun c => c.isAlpha || c.isDigit || isSpaceChar c)))

/-- The amended normalization wording: lower-case, strip every character that
is not a letter, digit, underscore, or whitespace, then trim; a missing field
normalizes to the empty string. -/
def amendedNormalize : Option String → String
  | none => ""
  | some s =>
      String.mk (trimChars (((s.data.map Char.toLower)).filter
        (fun c => c.isAlpha || c.isDigit || c = '_' || isSpaceChar c)))

/-- Sample record used for concrete checks. -/
def demoA : SongRecord := ⟨some "a", some "b", some "c", []⟩

/-- Sample record sharing no text with `demoA`. -/
def demoX : SongRecord := ⟨some "x", some "y", some "z", []⟩

/-- Sample record used for concrete tie checks. -/
def demoTie : SongRecord := ⟨some "tie", some "tie", some "tie", []⟩

/-- Sample record used for null-original checks. -/
def demoQ : SongRecord := ⟨some "q", some "r", some "s", []⟩

/-- A 40-character album title. -/
def albumForty : String := String.mk (List.replicate 40 'a')

/-- A 41-character album title, nearly identical to `albumForty`. -/
def albumFortyOne : String := String.mk (List.replicate 41 'a')

/-! ### Helper lemmas -/

/-- Characterization of `jsRound`: it returns `z` exactly when `z ≤ q + 1/2 < z + 1`. -/
lemma jsRound_eq_of (q : ℚ) (z : ℤ) (h1 : (z : ℚ) ≤ q + 1 / 2) (h2 : q + 1 / 2 < (z : ℚ) + 1) :
    jsRound q = z := by
  unfold jsRound
  exact Int.floor_eq_iff.mpr ⟨h1, h2⟩

lemma jsRound_nonneg (q : ℚ) (h : 0 ≤ q) : 0 ≤ jsRound q := by
  unfold jsRound
  have : ((0 : ℤ) : ℚ) ≤ q + 1 / 2 := by push_cast; linarith
  exact Int.le_floor.mpr this

lemma jsRound_le_100 (q : ℚ) (h : q ≤ 100) : jsRound q ≤ 100 := by
  unfold jsRound
  have : q + 1 / 2 < ((101 : ℤ) : ℚ) := by push_cast; linarith
  have h101 := Int.floor_lt.mpr this
  omega

lemma jsRound_lt_100 (q : ℚ) (h : q + 1 / 2 < 100) : jsRound q < 100 := by
  unfold jsRound
  exact Int.floor_lt.mpr (by push_cast; linarith)

lemma jsRound_gt_70 (q : ℚ) (h : 80 ≤ q) : 70 < jsRound q := by
  unfold jsRound
  have : ((71 : ℤ) : ℚ) ≤ q + 1 / 2 := by push_cast; linarith
  have h71 := Int.le_floor.mpr this
  omega

/-- Comparing a string with itself yields similarity 1. -/
lemma compareTwoStrings_self (s : String) : compareTwoStrings s s = 1 := by
  simp [compareTwoStrings]

lemma removeOne_length (g : Char × Char) (bag : List (Char × Char)) (hg : g ∈ bag) :
    (removeOne g bag).length + 1 = bag.length := by
  induction bag with
  | nil => cases hg
  | cons b rest ih =>
      by_cases hbg : b = g
      · simp [removeOne, hbg]
      · have hmem : g ∈ rest := by
          cases hg with
          | head => exact absurd rfl hbg
          | tail _ h => exact h
        simp only [removeOne, if_neg hbg, List.length_cons]
        rw [← ih hmem]

lemma interSize_le_right (bag l : List (Char × Char)) : interSize bag l ≤ l.length := by
  induction l generalizing bag with
  | nil => simp [interSize]
  | cons g rest ih =>
      simp only [interSize, List.length_cons]
      split
      · exact Nat.succ_le_succ (ih _)
      · exact Nat.le_succ_of_le (ih _)

lemma interSize_le_left (bag l : List (Char × Char)) : interSize bag l ≤ bag.length := by
  induction l generalizing bag with
  | nil => simp [interSize]
  | cons g rest ih =>
      simp only [interSize]
      split
      · rename_i hg
        have herase := removeOne_length g bag hg
        have := ih (removeOne g bag)
        omega
      · exact ih bag

lemma bigrams_length (l : List Char) : (bigrams l).length = l.length - 1 := by
  induction l with
  | nil => simp [bigrams]
  | cons a rest ih =>
      cases rest with
      | nil => simp [bigrams]
      | cons b r =>
          simp only [bigrams, List.length_cons] at ih ⊢
          omega

/-- The Dice similarity is never negative. -/
lemma compareTwoStrings_nonneg (s t : String) : 0 ≤ compareTwoStrings s t := by
  simp only [compareTwoStrings]
  split
  · norm_num
  · split
    · norm_num
    · rename_i hlen
      push_neg at hlen
      apply div_nonneg
      · positivity
      · have h1 : (2 : ℚ) ≤ ((removeSpaces s).length : ℚ) := by exact_mod_cast hlen.1
        have h2 : (2 : ℚ) ≤ ((removeSpaces t).length : ℚ) := by exact_mod_cast hlen.2
        linarith

/-- The Dice similarity never exceeds 1. -/
lemma compareTwoStrings_le_one (s t : String) : compareTwoStrings s t ≤ 1 := by
  simp only [compareTwoStrings]
  split
  · norm_num
  · split
    · norm_num
    · rename_i hlen
      push_neg at hlen
      set f := removeSpaces s with hf
      set g := removeSpaces t with hg
      have hI1 : interSize (bigrams f) (bigrams g) ≤ f.length - 1 := by
        have := interSize_le_left (bigrams f) (bigrams g)
        rwa [bigrams_length] at this
      have hI2 : interSize (bigrams f) (bigrams g) ≤ g.length - 1 := by
        have := interSize_le_right (bigrams f) (bigrams g)
        rwa [bigrams_length] at this
      have hnat : 2 * interSize (bigrams f) (bigrams g) ≤ f.length + g.length - 2 := by
        omega
      have hden : (0 : ℚ) < (f.length : ℚ) + (g.length : ℚ) - 2 := by
        have h1 : (2 : ℚ) ≤ (f.length : ℚ) := by exact_mod_cast hlen.1
        have h2 : (2 : ℚ) ≤ (g.length : ℚ) := by exact_mod_cast hlen.2
        linarith
      rw [div_le_one hden]
      have hcast : ((2 * interSize (bigrams f) (bigrams g) : ℕ) : ℚ)
          ≤ ((f.length + g.length - 2 : ℕ) : ℚ) := by exact_mod_cast hnat
      have hsub : ((f.length + g.length - 2 : ℕ) : ℚ)
          = (f.length : ℚ) + (g.length : ℚ) - 2 := by
        have : 2 ≤ f.length + g.length := by omega
        push_cast [Nat.cast_sub this]
        ring
      rw [hsub] at hcast
      push_cast at hcast
      linarith

lemma removeOne_coe (g : Char × Char) (bag : List (Char × Char)) :
    ((removeOne g bag : List (Char × Char)) : Multiset (Char × Char))
      = ((bag : List (Char × Char)) : Multiset (Char × Char)).erase g := by
  induction bag with
  | nil => simp [removeOne]
  | cons b rest ih =>
      have hcons : ((b :: rest : List (Char × Char)) : Multiset (Char × Char))
          = b ::ₘ (rest : Multiset (Char × Char)) := rfl
      by_cases hbg : b = g
      · subst hbg
        rw [show removeOne b (b :: rest) = rest from by simp [removeOne], hcons,
          Multiset.erase_cons_head]
      · rw [show removeOne g (b :: rest) = b :: removeOne g rest from by
            simp [removeOne, hbg],
          show ((b :: removeOne g rest : List (Char × Char)) : Multiset (Char × Char))
              = b ::ₘ ((removeOne g rest : List (Char × Char)) : Multiset (Char × Char)) from
            rfl,
          hcons, Multiset.erase_cons_tail _ hbg, ih]

/-- The walk of `interSize` computes exactly the multiset-intersection size of
the two bigram bags. -/
lemma interSize_eq_card (bag l : List (Char × Char)) :
    interSize bag l
      = Multiset.card ((l : Multiset (Char × Char)) ∩ (bag : Multiset (Char × Char))) := by
  induction l generalizing bag with
  | nil => simp [interSize]
  | cons g rest ih =>
      have hcons : ((g :: rest : List (Char × Char)) : Multiset (Char × Char))
          = g ::ₘ (rest : Multiset (Char × Char)) := rfl
      by_cases hg : g ∈ bag
      · have hgm : g ∈ (bag : Multiset (Char × Char)) := Multiset.mem_coe.mpr hg
        simp only [interSize, if_pos hg, hcons,
          Multiset.cons_inter_of_pos _ hgm, Multiset.card_cons]
        rw [ih (removeOne g bag), removeOne_coe]
      · have hgm : g ∉ (bag : Multiset (Char × Char)) := fun hm => hg (Multiset.mem_coe.mp hm)
        simp only [interSize, if_neg hg, hcons, Multiset.cons_inter_of_neg _ hgm]
        exact ih bag

lemma interSize_comm (x y : List (Char × Char)) : interSize x y = interSize y x := by
  rw [interSize_eq_card, interSize_eq_card, Multiset.inter_comm]

/-- The Dice similarity is symmetric in its two arguments. -/
lemma compareTwoStrings_comm (s t : String) :
    compareTwoStrings s t = compareTwoStrings t s := by
  simp only [compareTwoStrings]
  rcases eq_or_ne (removeSpaces s) (removeSpaces t) with h | h
  · rw [if_pos h, if_pos h.symm]
  · rw [if_neg h, if_neg (Ne.symm h)]
    by_cases h2 : (removeSpaces s).length < 2 ∨ (removeSpaces t).length < 2
    · rw [if_pos h2, if_pos (Or.symm h2)]
    · rw [if_neg h2, if_neg (fun hc => h2 (Or.symm hc))]
      rw [interSize_comm]
      ring_nf

/-- Both field similarities and weights are applied identically in the two
directions, so the whole score is symmetric. -/
lemma calculateSongScore_comm (a b : Option SongRecord) :
    calculateSongScore a b = calculateSongScore b a := by
  cases a with
  | none => cases b <;> rfl
  | some o =>
      cases b with
      | none => rfl
      | some c =>
          simp only [calculateSongScore]
          rw [compareTwoStrings_comm (normalize o.name),
            compareTwoStrings_comm (normalize o.artist),
            compareTwoStrings_comm (normalize o.album)]

/-- Scoring a record against itself (all three fields present) gives 100. -/
lemma calculateSongScore_self (n a b : String) (e : List (String × String)) :
    calculateSongScore (some ⟨some n, some a, some b, e⟩)
      (some ⟨some n, some a, some b, e⟩) = 100 := by
  simp only [calculateSongScore, compareTwoStrings_self]
  apply jsRound_eq_of <;> norm_num

/-- The score is never negative. -/
lemma calculateSongScore_nonneg (a b : Option SongRecord) :
    0 ≤ calculateSongScore a b := by
  cases a with
  | none => cases b <;> norm_num [calculateSongScore]
  | some o =>
      cases b with
      | none => norm_num [calculateSongScore]
      | some c =>
          simp only [calculateSongScore]
          apply jsRound_nonneg
          have h1 := compareTwoStrings_nonneg (normalize o.name) (normalize c.name)
          have h2 := compareTwoStrings_nonneg (normalize o.artist) (normalize c.artist)
          have h3 := compareTwoStrings_nonneg (normalize o.album) (normalize c.album)
          nlinarith

/-- The score never exceeds 100. -/
lemma calculateSongScore_le_100 (a b : Option SongRecord) :
    calculateSongScore a b ≤ 100 := by
  cases a with
  | none => cases b <;> norm_num [calculateSongScore]
  | some o =>
      cases b with
      | none => norm_num [calculateSongScore]
      | some c =>
          simp only [calculateSongScore]
          apply jsRound_le_100
          have h1 := compareTwoStrings_nonneg (normalize o.name) (normalize c.name)
          have h2 := compareTwoStrings_nonneg (normalize o.artist) (normalize c.artist)
          have h3 := compareTwoStrings_nonneg (normalize o.album) (normalize c.album)
          have h4 := compareTwoStrings_le_one (normalize o.name) (normalize c.name)
          have h5 := compareTwoStrings_le_one (normalize o.artist) (normalize c.artist)
          have h6 := compareTwoStrings_le_one (normalize o.album) (normalize c.album)
          nlinarith

lemma le_foldl_max {α : Type} (f : α → ℤ) (l : List α) (b0 : ℤ) :
    b0 ≤ l.foldl (fun a c => max a (f c)) b0 := by
  induction l generalizing b0 with
  | nil => exact le_refl b0
  | cons c rest ih =>
      simp only [List.foldl_cons]
      exact le_trans (le_max_left b0 (f c)) (ih (max b0 (f c)))

lemma foldl_max_mem {α : Type} (f : α → ℤ) (l : List α) (b0 : ℤ) (c : α) (hc : c ∈ l) :
    f c ≤ l.foldl (fun a d => max a (f d)) b0 := by
  induction l generalizing b0 with
  | nil => cases hc
  | cons d rest ih =>
      simp only [List.foldl_cons]
      cases hc with
      | head =>
          exact le_trans (le_max_right b0 (f c)) (le_foldl_max f rest (max b0 (f c)))
      | tail _ hmem => exact ih (max b0 (f d)) hmem

lemma foldl_max_of_all_le {α : Type} (f : α → ℤ) (l : List α) (b0 : ℤ)
    (h : ∀ c ∈ l, f c ≤ b0) : l.foldl (fun a c => max a (f c)) b0 = b0 := by
  induction l with
  | nil => rfl
  | cons c rest ih =>
      simp only [List.foldl_cons]
      rw [max_eq_left (h c (List.mem_cons_self c rest))]
      exact ih (fun d hd => h d (List.mem_cons_of_mem c hd))

/-- Full characterization of the candidate loop: the final best score is the
running fold of `max` over all candidate scores, the best match is untouched
when no candidate strictly beats the incoming score, and as soon as one does,
the loop ends on the first index attaining the final best score. -/
lemma findBestLoop_spec (orig : Option SongRecord) (cs : List SongRecord) :
    ∀ (best : Option MatchResult) (b0 : ℤ),
      (findBestLoop orig cs best b0).2
          = cs.foldl (fun a c => max a (calculateSongScore orig (some c))) b0
      ∧ ((∀ c ∈ cs, calculateSongScore orig (some c) ≤ b0) →
            findBestLoop orig cs best b0 = (best, b0))
      ∧ ((∃ c ∈ cs, b0 < calculateSongScore orig (some c)) →
            ∃ i : ℕ, ∃ hi : i < cs.length,
              calculateSongScore orig (some (cs.get ⟨i, hi⟩))
                  = (findBestLoop orig cs best b0).2
              ∧ (∀ j : ℕ, ∀ hj : j < cs.length, j < i →
                  calculateSongScore orig (some (cs.get ⟨j, hj⟩))
                      < (findBestLoop orig cs best b0).2)
              ∧ (findBestLoop orig cs best b0).1
                  = some ⟨cs.get ⟨i, hi⟩, (findBestLoop orig cs best b0).2⟩) := by
  induction cs with
  | nil =>
      intro best b0
      exact ⟨rfl, fun _ => rfl, fun h => absurd h (by simp)⟩
  | cons c rest ih =>
      intro best b0
      by_cases hc : calculateSongScore orig (some c) > b0
      · have hloop : findBestLoop orig (c :: rest) best b0
            = findBestLoop orig rest (some ⟨c, calculateSongScore orig (some c)⟩)
                (calculateSongScore orig (some c)) := by
          simp [findBestLoop, hc]
        have hmax : max b0 (calculateSongScore orig (some c))
            = calculateSongScore orig (some c) := max_eq_right (le_of_lt hc)
        obtain ⟨ih1, ih2, ih3⟩ :=
          ih (some ⟨c, calculateSongScore orig (some c)⟩) (calculateSongScore orig (some c))
        refine ⟨?_, ?_, ?_⟩
        · rw [hloop, ih1]
          simp only [List.foldl_cons, hmax]
        · intro hall
          exact absurd (hall c (List.mem_cons_self c rest)) (not_le.mpr hc)
        · intro _
          by_cases hrest : ∃ d ∈ rest,
              calculateSongScore orig (some c) < calculateSongScore orig (some d)
          · obtain ⟨i, hi, hattain, hbefore, hfst⟩ := ih3 hrest
            refine ⟨i + 1, Nat.succ_lt_succ hi, ?_, ?_, ?_⟩
            · rw [hloop]
              exact hattain
            · intro j hj hji
              rw [hloop]
              cases j with
              | zero =>
                  obtain ⟨d, hd, hlt⟩ := hrest
                  have hd_le : calculateSongScore orig (some d)
                      ≤ (findBestLoop orig rest
                          (some ⟨c, calculateSongScore orig (some c)⟩)
                          (calculateSongScore orig (some c))).2 := by
                    rw [ih1]
                    exact foldl_max_mem _ rest _ d hd
                  exact lt_of_lt_of_le hlt hd_le
              | succ j0 =>
                  exact hbefore j0 (Nat.lt_of_succ_lt_succ hj) (Nat.lt_of_succ_lt_succ hji)
            · rw [hloop]
              exact hfst
          · push_neg at hrest
            have hpair := ih2 hrest
            refine ⟨0, Nat.succ_pos rest.length, ?_, ?_, ?_⟩
            · rw [hloop, hpair]
              rfl
            · intro j hj hji
              exact absurd hji (Nat.not_lt_zero j)
            · rw [hloop, hpair]
              rfl
      · have hloop : findBestLoop orig (c :: rest) best b0
            = findBestLoop orig rest best b0 := by
          simp [findBestLoop, hc]
        have hc_le : calculateSongScore orig (some c) ≤ b0 := not_lt.mp hc
        have hmax : max b0 (calculateSongScore orig (some c)) = b0 := max_eq_left hc_le
        obtain ⟨ih1, ih2, ih3⟩ := ih best b0
        refine ⟨?_, ?_, ?_⟩
        · rw [hloop, ih1]
          simp only [List.foldl_cons, hmax]
        · intro hall
          rw [hloop]
          exact ih2 (fun d hd => hall d (List.mem_cons_of_mem c hd))
        · intro hex
          obtain ⟨d, hd, hlt⟩ := hex
          have hd_rest : d ∈ rest := by
            cases hd with
            | head => exact absurd hlt (not_lt.mpr hc_le)
            | tail _ hmem => exact hmem
          obtain ⟨i, hi, hattain, hbefore, hfst⟩ := ih3 ⟨d, hd_rest, hlt⟩
          refine ⟨i + 1, Nat.succ_lt_succ hi, ?_, ?_, ?_⟩
          · rw [hloop]
            exact hattain
          · intro j hj hji
            rw [hloop]
            cases j with
            | zero =>
                have hd_le : calculateSongScore orig (some d)
                    ≤ (findBestLoop orig rest best b0).2 := by
                  rw [ih1]
                  exact foldl_max_mem _ rest _ d hd_rest
                exact lt_of_le_of_lt hc_le (lt_of_lt_of_le hlt hd_le)
            | succ j0 =>
                exact hbefore j0 (Nat.lt_of_succ_lt_succ hj) (Nat.lt_of_succ_lt_succ hji)
          · rw [hloop]
            exact hfst

/-- On a non-empty candidate list, `findBestMatch` is the loop result gated by
the literal 60 threshold. -/
lemma findBestMatch_some (orig : Option SongRecord) (cs : List SongRecord) (h : cs ≠ []) :
    findBestMatch orig (some cs)
      = if (findBestLoop orig cs none 0).2 ≥ 60 then (findBestLoop orig cs none 0).1
        else none := by
  have hlen : ¬ cs.length = 0 := by simpa [List.length_eq_zero] using h
  simp only [findBestMatch]
  rw [if_neg hlen]

/-! ### Claim theorems -/

/-- Claim C2: for every pair of non-null song records, `calculateSongScore`
returns an integer in `[0, 100]` equal to the per-field similarities of the
normalized name, artist and album combined with the fixed weights 0.4 (title),
0.4 (artist) and 0.2 (album), multiplied by 100 and rounded to the nearest
integer (ties up). -/
theorem C2_score_contract (o c : SongRecord) :
    0 ≤ calculateSongScore (some o) (some c) ∧
    calculateSongScore (some o) (some c) ≤ 100 ∧
    calculateSongScore (some o) (some c)
      = jsRound (100 * ((0.4 : ℚ) * compareTwoStrings (normalize o.name) (normalize c.name)
          + (0.4 : ℚ) * compareTwoStrings (normalize o.artist) (normalize c.artist)
          + (0.2 : ℚ) * compareTwoStrings (normalize o.album) (normalize c.album))) := by
  refine ⟨calculateSongScore_nonneg _ _, calculateSongScore_le_100 _ _, ?_⟩
  simp only [calculateSongScore]
  congr 1
  ring

/-- Claim C3, counterexample: the code's regex class `\w` keeps underscores, so
the underscore — which is neither a letter nor a digit nor whitespace — is NOT
stripped by the implementation, contradicting the claimed normalization. -/
theorem C3_counterexample :
    normalize (some "_") = "_" ∧ claimNormalize (some "_") = "" ∧
    normalize (some "_") ≠ claimNormalize (some "_") :=
  ⟨by decide, by decide, by decide⟩

/-- Claim C3, amended: for every input string, the scorer's normalization
lower-cases the text, strips every character that is not a letter, digit,
underscore, or whitespace, then trims leading/trailing whitespace; a missing
(null/undefined) field normalizes to the empty string. -/
theorem C3_normalization_amended (s : Option String) :
    normalize s = amendedNormalize s := by
  cases s with
  | none => rfl
  | some s => simp [normalize, amendedNormalize, isWordChar, Bool.or_assoc]

/-- Claim C4: `getConfidenceLevel` is total over all integers and returns
exactly "Exact match" for `score ≥ 98`, "{score}% match" for
`60 ≤ score < 98` (the 90/80/60 branches being textually identical), and
"{score}% match (low confidence)" for `score < 60`. -/
theorem C4_confidence_levels (score : ℤ) :
    (98 ≤ score → getConfidenceLevel score = "Exact match") ∧
    (60 ≤ score → score < 98 → getConfidenceLevel score = toString score ++ "% match") ∧
    (score < 60 → getConfidenceLevel score = toString score ++ "% match (low confidence)") := by
  refine ⟨fun h => ?_, fun h1 h2 => ?_, fun h => ?_⟩ <;>
    simp only [getConfidenceLevel] <;> split_ifs <;> first | rfl | omega

/-- Claim C4 witness: the Labeler boundary values 100, 98, 97, 60 and 59. -/
theorem C4_confidence_levels_witness :
    getConfidenceLevel 100 = "Exact match" ∧
    getConfidenceLevel 98 = "Exact match" ∧
    getConfidenceLevel 97 = toString (97 : ℤ) ++ "% match" ∧
    getConfidenceLevel 60 = toString (60 : ℤ) ++ "% match" ∧
    getConfidenceLevel 59 = toString (59 : ℤ) ++ "% match (low confidence)" :=
  ⟨(C4_confidence_levels 100).1 (by omega),
   (C4_confidence_levels 98).1 (by omega),
   (C4_confidence_levels 97).2.1 (by omega) (by omega),
   (C4_confidence_levels 60).2.1 (by omega) (by omega),
   (C4_confidence_levels 59).2.2 (by omega)⟩

/-- Claim C6: whenever either input record (or both) is null/absent,
`calculateSongScore` returns 0 (and, being a total Lean function, never
throws). -/
theorem C6_null_safety (x : Option SongRecord) :
    calculateSongScore none x = 0 ∧ calculateSongScore x none = 0 := by
  cases x <;> exact ⟨rfl, rfl⟩

/-- Claim C7: scoring any fully-populated record (name, artist, album all
present) against an identical record gives exactly 100. -/
theorem C7_identity (n a b : String) (e : List (String × String)) :
    calculateSongScore (some ⟨some n, some a, some b, e⟩)
      (some ⟨some n, some a, some b, e⟩) = 100 :=
  calculateSongScore_self n a b e

/-- Claim C9: `calculateSongScore` is symmetric, including the null cases,
since the bigram similarity and the fixed weights are applied identically in
both directions. -/
theorem C9_symmetry (a b : Option SongRecord) :
    calculateSongScore a b = calculateSongScore b a :=
  calculateSongScore_comm a b

/-- Claim C1: `findBestMatch` returns none on a null/absent or empty candidate
list; otherwise, with `m` the maximum candidate score (`bestScoreOf`, shown
here to bound every candidate score and to be attained), it returns none when
`m < 60` and, when `m ≥ 60`, a `MatchResult` carrying the winning candidate's
fields unchanged plus `matchScore = m`. -/
theorem C1_findBestMatch_contract (orig : Option SongRecord)
    (cands : Option (List SongRecord)) :
    ((cands = none ∨ cands = some []) → findBestMatch orig cands = none) ∧
    (∀ cs : List SongRecord, cands = some cs → cs ≠ [] →
      (∀ c ∈ cs, calculateSongScore orig (some c) ≤ bestScoreOf orig cs) ∧
      (∃ c ∈ cs, calculateSongScore orig (some c) = bestScoreOf orig cs) ∧
      (bestScoreOf orig cs < 60 → findBestMatch orig cands = none) ∧
      (60 ≤ bestScoreOf orig cs →
        ∃ c ∈ cs, calculateSongScore orig (some c) = bestScoreOf orig cs ∧
          findBestMatch orig cands = some ⟨c, bestScoreOf orig cs⟩)) := by
  constructor
  · rintro (rfl | rfl)
    · rfl
    · rfl
  · intro cs hcs hne
    subst hcs
    obtain ⟨h1, h2, h3⟩ := findBestLoop_spec orig cs none 0
    have hm : (findBestLoop orig cs none 0).2 = bestScoreOf orig cs := h1
    have hmatch := findBestMatch_some orig cs hne
    refine ⟨?_, ?_, ?_, ?_⟩
    · intro c hc
      exact foldl_max_mem _ cs 0 c hc
    · by_cases hpos : ∃ c ∈ cs, (0 : ℤ) < calculateSongScore orig (some c)
      · obtain ⟨i, hi, hatt, _, _⟩ := h3 hpos
        exact ⟨cs.get ⟨i, hi⟩, List.get_mem cs i hi, by rw [← hm]; exact hatt⟩
      · push_neg at hpos
        have hz : bestScoreOf orig cs = 0 := foldl_max_of_all_le _ cs 0 hpos
        obtain ⟨c0, l0, hcs0⟩ := List.exists_cons_of_ne_nil hne
        have hc0 : c0 ∈ cs := by rw [hcs0]; exact List.mem_cons_self c0 l0
        have h0 : calculateSongScore orig (some c0) = 0 :=
          le_antisymm (hpos c0 hc0) (calculateSongScore_nonneg _ _)
        exact ⟨c0, hc0, by rw [h0, hz]⟩
    · intro h60
      rw [hmatch, if_neg (by rw [hm]; omega)]
    · intro h60
      have hpos : ∃ c ∈ cs, (0 : ℤ) < calculateSongScore orig (some c) := by
        by_contra hcon
        push_neg at hcon
        have hz : bestScoreOf orig cs = 0 := foldl_max_of_all_le _ cs 0 hcon
        omega
      obtain ⟨i, hi, hatt, _, hfst⟩ := h3 hpos
      refine ⟨cs.get ⟨i, hi⟩, List.get_mem cs i hi, by rw [← hm]; exact hatt, ?_⟩
      rw [hmatch, if_pos (by rw [hm]; exact h60), hfst, hm]

/-- Claim C1 witness: a null candidate list gives none, and a single
completely-dissimilar candidate (best score 0 < 60) also gives none. -/
theorem C1_findBestMatch_contract_witness :
    findBestMatch (some demoA) none = none ∧
    findBestMatch (some demoA) (some [demoX]) = none := by
  have h1 : compareTwoStrings (normalize (some "a")) (normalize (some "x")) = 0 := by decide
  have h2 : compareTwoStrings (normalize (some "b")) (normalize (some "y")) = 0 := by decide
  have h3 : compareTwoStrings (normalize (some "c")) (normalize (some "z")) = 0 := by decide
  have hscore : calculateSongScore (some demoA) (some demoX) = 0 := by
    simp only [calculateSongScore, demoA, demoX, h1, h2, h3]
    apply jsRound_eq_of <;> norm_num
  have hbest : bestScoreOf (some demoA) [demoX] = 0 := by
    simp [bestScoreOf, hscore]
  exact ⟨(C1_findBestMatch_contract (some demoA) none).1 (Or.inl rfl),
    ((C1_findBestMatch_contract (some demoA) (some [demoX])).2 [demoX] rfl
        (List.cons_ne_nil demoX [])).2.2.1 (by rw [hbest]; omega)⟩

/-- Claim C5, counterexample: with a null original, both candidates score 0
and both attain the maximal score (a tie), yet `findBestMatch` returns none —
not the earliest maximal candidate — because the maximum is below the 60
threshold.  The claim as stated therefore fails for tied sequences whose
maximum is below 60. -/
theorem C5_counterexample :
    calculateSongScore none (some demoQ) = bestScoreOf none [demoQ, demoQ] ∧
    findBestMatch none (some [demoQ, demoQ]) = none :=
  ⟨by decide, by decide⟩

/-- Claim C5, amended: whenever at least two candidates (at positions
`i < j`) attain the maximal score and that maximum is at least 60,
`findBestMatch` returns the earliest maximal candidate — an index `k ≤ i`
attaining the maximum with every earlier candidate scoring strictly below
it — annotated with the maximal score, the maximum itself being the fold
over every candidate's score. -/
theorem C5_tie_break_amended (orig : Option SongRecord) (cs : List SongRecord)
    (i j : ℕ) (hi : i < cs.length) (hj : j < cs.length) (hij : i < j)
    (hattain_i : calculateSongScore orig (some (cs.get ⟨i, hi⟩)) = bestScoreOf orig cs)
    (hattain_j : calculateSongScore orig (some (cs.get ⟨j, hj⟩)) = bestScoreOf orig cs)
    (h60 : 60 ≤ bestScoreOf orig cs) :
    ∃ k : ℕ, ∃ hk : k < cs.length,
      k ≤ i ∧
      calculateSongScore orig (some (cs.get ⟨k, hk⟩)) = bestScoreOf orig cs ∧
      (∀ l : ℕ, ∀ hl : l < cs.length, l < k →
          calculateSongScore orig (some (cs.get ⟨l, hl⟩)) < bestScoreOf orig cs) ∧
      findBestMatch orig (some cs) = some ⟨cs.get ⟨k, hk⟩, bestScoreOf orig cs⟩ := by
  have hne : cs ≠ [] := by
    intro hnil
    rw [hnil] at hi
    exact absurd hi (by simp)
  obtain ⟨h1, h2, h3⟩ := findBestLoop_spec orig cs none 0
  have hm : (findBestLoop orig cs none 0).2 = bestScoreOf orig cs := h1
  have hpos : ∃ c ∈ cs, (0 : ℤ) < calculateSongScore orig (some c) :=
    ⟨cs.get ⟨i, hi⟩, List.get_mem cs i hi, by rw [hattain_i]; omega⟩
  obtain ⟨k, hk, hatt, hbef, hfst⟩ := h3 hpos
  have hk_le : k ≤ i := by
    by_contra hgt
    push_neg at hgt
    have hlt := hbef i hi hgt
    rw [hattain_i, hm] at hlt
    exact lt_irrefl _ hlt
  refine ⟨k, hk, hk_le, by rw [← hm]; exact hatt, ?_, ?_⟩
  · intro l hl hlk
    have hlt := hbef l hl hlk
    rwa [hm] at hlt
  · rw [findBestMatch_some orig cs hne, if_pos (by rw [hm]; exact h60), hfst, hm]

/-- Claim C5 witness: two identical candidates tie at score 100 and the first
one is returned, annotated with the maximal score. -/
theorem C5_tie_break_amended_witness :
    findBestMatch (some demoTie) (some [demoTie, demoTie]) = some ⟨demoTie, 100⟩ := by
  have hs : calculateSongScore (some demoTie) (some demoTie) = 100 := by
    simp only [demoTie]
    exact calculateSongScore_self "tie" "tie" "tie" []
  have hb : bestScoreOf (some demoTie) [demoTie, demoTie] = 100 := by
    simp [bestScoreOf, hs]
  obtain ⟨k, hk, hk0, hatt, hbef, hfst⟩ :=
    C5_tie_break_amended (some demoTie) [demoTie, demoTie] 0 1 (by norm_num) (by norm_num)
      (by norm_num) (by rw [hb]; exact hs) (by rw [hb]; exact hs) (by rw [hb]; omega)
  have hk0' : k = 0 := Nat.le_zero.mp hk0
  subst hk0'
  rw [hb] at hfst
  exact hfst

/-- Claim C10: with a null/absent original song, every candidate scores 0 via
the scorer's null guard, so `findBestMatch` on a non-empty candidate list
returns none without raising. -/
theorem C10_null_original (cs : List SongRecord) (h : cs ≠ []) :
    (∀ c ∈ cs, calculateSongScore none (some c) = 0) ∧
    findBestMatch none (some cs) = none := by
  have hzero : ∀ c ∈ cs, calculateSongScore none (some c) = 0 := fun c _ => rfl
  refine ⟨hzero, ?_⟩
  obtain ⟨h1, h2, h3⟩ := findBestLoop_spec none cs none 0
  have hpair := h2 (fun c hc => le_of_eq (hzero c hc))
  rw [findBestMatch_some none cs h, hpair]
  norm_num

/-- Claim C10 witness: a concrete single-candidate list with a null original. -/
theorem C10_null_original_witness :
    findBestMatch none (some [demoQ]) = none :=
  (C10_null_original [demoQ] (List.cons_ne_nil demoQ [])).2

/-- Claim C8, counterexample: two fully-populated records with identical name
and artist and with differing, not fully similar albums (40 vs 41 letters a,
Dice similarity 78/79 < 1) still score exactly 100, because the rounding of
80 + 20·(78/79) ≈ 99.9 reaches 100.  This contradicts the claim's
"lower than the identical-record score of 100". -/
theorem C8_counterexample :
    albumForty ≠ albumFortyOne ∧
    compareTwoStrings (normalize (some albumForty)) (normalize (some albumFortyOne)) < 1 ∧
    calculateSongScore (some ⟨some "n", some "ar", some albumForty, []⟩)
        (some ⟨some "n", some "ar", some albumFortyOne, []⟩) = 100 := by
  have hn40 : normalize (some albumForty) = albumForty := by decide
  have hn41 : normalize (some albumFortyOne) = albumFortyOne := by decide
  have hI : interSize (bigrams (removeSpaces albumForty))
      (bigrams (removeSpaces albumFortyOne)) = 39 := by decide
  have hneq : removeSpaces albumForty ≠ removeSpaces albumFortyOne := by decide
  have hl1 : (removeSpaces albumForty).length = 40 := by decide
  have hl2 : (removeSpaces albumFortyOne).length = 41 := by decide
  have hcomp : compareTwoStrings albumForty albumFortyOne = 78 / 79 := by
    rw [compareTwoStrings]
    simp only [hI, hneq, hl1, hl2, if_false, ite_false]
    norm_num
  refine ⟨by decide, ?_, ?_⟩
  · rw [hn40, hn41, hcomp]
    norm_num
  · simp only [calculateSongScore, compareTwoStrings_self, hn40, hn41, hcomp]
    apply jsRound_eq_of <;> norm_num

/-- Claim C8, amended: for fully-populated records with identical name and
artist and a not-fully-similar album pair, the score is strictly greater than
70 and at most 100; it is strictly below 100 provided the album similarity is
below 39/40 = 0.975 (near-identical albums can still round up to 100). -/
theorem C8_weight_sensitivity_amended (n a alb1 alb2 : String)
    (e1 e2 : List (String × String))
    (halb : compareTwoStrings (normalize (some alb1)) (normalize (some alb2)) < 1) :
    70 < calculateSongScore (some ⟨some n, some a, some alb1, e1⟩)
        (some ⟨some n, some a, some alb2, e2⟩) ∧
    calculateSongScore (some ⟨some n, some a, some alb1, e1⟩)
        (some ⟨some n, some a, some alb2, e2⟩) ≤ 100 ∧
    (compareTwoStrings (normalize (some alb1)) (normalize (some alb2)) < 39 / 40 →
      calculateSongScore (some ⟨some n, some a, some alb1, e1⟩)
          (some ⟨some n, some a, some alb2, e2⟩) < 100) := by
  have hb0 := compareTwoStrings_nonneg (normalize (some alb1)) (normalize (some alb2))
  refine ⟨?_, ?_, ?_⟩
  · simp only [calculateSongScore, compareTwoStrings_self]
    apply jsRound_gt_70
    nlinarith
  · simp only [calculateSongScore, compareTwoStrings_self]
    apply jsRound_le_100
    nlinarith
  · intro hsmall
    simp only [calculateSongScore, compareTwoStrings_self]
    apply jsRound_lt_100
    nlinarith

/-- Claim C8 witness: identical name and artist, single-letter albums "p" and
"q" (similarity 0), satisfying both amended bounds with a score of 80. -/
theorem C8_weight_sensitivity_amended_witness :
    70 < calculateSongScore (some ⟨some "w", some "v", some "p", []⟩)
        (some ⟨some "w", some "v", some "q", []⟩) ∧
    calculateSongScore (some ⟨some "w", some "v", some "p", []⟩)
        (some ⟨some "w", some "v", some "q", []⟩) ≤ 100 ∧
    (compareTwoStrings (normalize (some "p")) (normalize (some "q")) < 39 / 40 →
      calculateSongScore (some ⟨some "w", some "v", some "p", []⟩)
          (some ⟨some "w", some "v", some "q", []⟩) < 100) :=
  C8_weight_sensitivity_amended "w" "v" "p" "q" [] []
    (by rw [show compareTwoStrings (normalize (some "p")) (normalize (some "q")) = 0 from
          by decide]
        norm_num)

end Scoring
